import Mathlib

/-! safe_core_nan: the single-worker dispatch core of `addon.cc`

A shallow embedding of `src/addon.cc`: the two file-scope variables
(`active_thread`, `queue`), the exported function `create_account_async`,
the background thread started by `Init`, and the effects both have on the
outside world (calls of `Nan::MakeCallback` and of the foreign function
`create_account`), followed by the properties proved about them.
-/

namespace SafeCoreNan

/-! ## Data model -/

/-- A JavaScript value as it reaches the addon through `info[i]`.  Only the
kinds the addon distinguishes are kept: `undefined`, a string, and a function
(identified by `id`, with the source text that V8's `ToString` yields). -/
inductive Value where
  | undefined
  | string (s : String)
  | function (id : Nat) (text : String)
  deriving DecidableEq, Repr

/-- The enumeration `ActionType` (lines 69-71). -/
inductive ActionType where
  | CreateAccountAsync
  deriving DecidableEq, Repr

/-- The struct `Args` (lines 73-75). -/
structure Args where
  string_args : List String
  deriving DecidableEq, Repr

/-- The struct `Action` (lines 77-81); `callback` is the persistent handle,
kept as the value it was reset to. -/
structure Action where
  type : ActionType
  args : Args
  callback : Value
  deriving DecidableEq, Repr

/-- The effects of the addon that are visible outside it: a call of
`Nan::MakeCallback(global, cb, argc, argv)` and a call of the foreign function
`create_account(locator, password, &handle)`. -/
inductive Event where
  | MakeCallback (cb : Value) (argv : List Value)
  | create_account (c_account_locator c_account_passwor : String)
  deriving DecidableEq, Repr

/-- The foreign function `create_account` (lines 13-17): from the two C strings
to the returned status code and the handle written through `ffi_handle`. -/
abbrev Ffi := String → String → Int × Nat

/-- Where the background thread stands inside the body of its `for (;;)` loop
(lines 110-131). -/
inductive PC where
  /-- line 111: about to construct `guard` with `std::try_to_lock` -/
  | try_to_lock
  /-- line 113: about to evaluate `!guard.owns_lock() || queue.size() == 0` -/
  | check
  /-- lines 118-125: about to read `queue.front()` and call `create_account` -/
  | front
  /-- lines 125-126: inside the blocking call of `create_account`, which was
  given the C strings `arg1` and `arg2` -/
  | in_create_account (arg1 arg2 : String)
  /-- line 130: about to execute `queue.pop_front()` -/
  | pop_front
  /-- line 131: the closing brace of the loop body, where `guard` is destroyed -/
  | end_of_body
  deriving DecidableEq, Repr

/-- The local state of one background thread: its position and whether its
`guard` currently owns `queue_mutex`. -/
structure Worker where
  pc : PC
  owns_lock : Bool
  deriving DecidableEq, Repr

/-- The state of the whole addon: the two file-scope variables, the threads
started so far, and the effects produced so far (oldest first). -/
structure Sys where
  active_thread : Bool
  queue : List Action
  workers : List Worker
  trace : List Event
  deriving DecidableEq, Repr

/-! ## Operations -/

/-- The subscript `info[i]` of `FunctionCallbackInfo`: `undefined` when fewer
than `i + 1` arguments were passed. -/
def info_at (info : List Value) (i : Nat) : Value :=
  info.getD i Value.undefined

/-- The conversion `std::string(*data, data.length())` of a
`v8::String::Utf8Value data(v)`: the string itself, or the `ToString` of a
value that is not a string. -/
def Utf8Value : Value → String
  | Value.string s => s
  | Value.undefined => "undefined"
  | Value.function _ text => text

/-- The C string `s.c_str()` as the C function that receives the pointer reads
it: the characters of the `std::string` before its first NUL.  (The strings
built at lines 96 and 100 are given their length and may hold NULs.) -/
def c_str (s : String) : String :=
  String.mk (s.data.takeWhile (fun c => c != Char.ofNat 0))

/-- The function `create_account_async` (lines 86-106).  The `Action` built in
the inner block goes out of scope at line 103; the function then calls
`Nan::MakeCallback` on `cb` with the single argument `"hello world"`. -/
def create_account_async (s : Sys) (info : List Value) : Sys :=
  let arg1 := info_at info 0
  let arg2 := info_at info 1
  let cb := info_at info 2
  let _a : Action :=
    { type := ActionType.CreateAccountAsync
      args := { string_args := ([] ++ [Utf8Value arg1]) ++ [Utf8Value arg2] }
      callback := cb }
  let argv := [Value.string "hello world"]
  { s with trace := s.trace ++ [Event.MakeCallback cb argv] }

/-- One statement of the loop body of the background thread (lines 110-131),
executed on the shared `queue` by a thread in local state `w`.
`try_lock_ok` is the outcome of `std::try_to_lock` on `queue_mutex` and is
read at line 111 only.  `create_account` receives `arg1.c_str()` and
`arg2.c_str()` (lines 125-126).  `none` stands for undefined behaviour (`front`
or `pop_front` on an empty deque, `string_args[0]` on an empty vector). -/
def worker_step (create_account : Ffi) (try_lock_ok : Bool) (queue : List Action)
    (w : Worker) : Option (List Action × Worker × List Event) :=
  match w.pc with
  | PC.try_to_lock =>
      some (queue, { pc := PC.check, owns_lock := try_lock_ok }, [])
  | PC.check =>
      if !w.owns_lock || queue.length == 0 then
        -- sleep_for(10ms); continue;  (the guard is destroyed on the way out)
        some (queue, { pc := PC.try_to_lock, owns_lock := false }, [])
      else
        some (queue, { w with pc := PC.front }, [])
  | PC.front =>
      match queue with
      | [] => none
      | a :: _ =>
        match a.type with
        | ActionType.CreateAccountAsync =>
          match a.args.string_args[0]?, a.args.string_args[0]? with
          | some arg1, some arg2 =>
              some (queue,
                    { w with pc := PC.in_create_account (c_str arg1) (c_str arg2) },
                    [Event.create_account (c_str arg1) (c_str arg2)])
          | _, _ => none
  | PC.in_create_account arg1 arg2 =>
      let _ret := create_account arg1 arg2
      some (queue, { w with pc := PC.pop_front }, [])
  | PC.pop_front =>
      match queue with
      | [] => none
      | _ :: rest => some (rest, { w with pc := PC.end_of_body }, [])
  | PC.end_of_body =>
      some (queue, { pc := PC.try_to_lock, owns_lock := false }, [])

/-- A thread that has just been started: at the top of the loop, no guard. -/
def fresh_worker : Worker := { pc := PC.try_to_lock, owns_lock := false }

/-- Runs the statements of the loop body until control is back at the top of
the loop (at most `fuel` statements). -/
def run_body (create_account : Ffi) :
    Nat → List Action → Worker → List Event → Option (List Action × List Event)
  | 0, _, _, _ => none
  | fuel + 1, queue, w, ev =>
      match worker_step create_account false queue w with
      | none => none
      | some (queue1, w1, e) =>
          if w1.pc = PC.try_to_lock then some (queue1, ev ++ e)
          else run_body create_account fuel queue1 w1 (ev ++ e)

/-- One whole iteration of the `for (;;)` loop of the background thread, from
line 111 back to line 111: the queue it leaves and the effects it has. -/
def worker_iteration (create_account : Ffi) (try_lock_ok : Bool)
    (queue : List Action) : Option (List Action × List Event) :=
  match worker_step create_account try_lock_ok queue fresh_worker with
  | none => none
  | some (queue1, w1, e) => run_body create_account 5 queue1 w1 e

/-- A sequence of loop iterations with nothing else running in between; the
list gives the outcome of `try_to_lock` in each iteration. -/
def drain (create_account : Ffi) :
    List Bool → List Action → Option (List Action × List Event)
  | [], queue => some (queue, [])
  | ok :: rest, queue =>
      match worker_iteration create_account ok queue with
      | none => none
      | some (queue1, e) =>
          match drain create_account rest queue1 with
          | none => none
          | some (queue2, e2) => some (queue2, e ++ e2)

/-- The state when the module is loaded: the static initialisers of lines 67
and 83, no thread started, nothing done yet. -/
def start : Sys :=
  { active_thread := false, queue := [], workers := [], trace := [] }

/-- The function `Init` (lines 108-136): starts one detached background thread
running the loop (and exports `create_account_async`, which is what makes the
submissions of a schedule possible). -/
def Init (s : Sys) : Sys :=
  { s with workers := s.workers ++ [fresh_worker] }

/-- What can happen next: JavaScript calls `create_account_async` with the
arguments `info` on the main thread, or background thread number `i` executes
its next statement. -/
inductive Step where
  | submit (info : List Value)
  | worker (i : Nat) (try_lock_ok : Bool)
  deriving DecidableEq, Repr

/-- Executes one step.  A step of a thread that was never started changes
nothing; `none` is undefined behaviour in the thread. -/
def exec (create_account : Ffi) (s : Sys) : Step → Option Sys
  | Step.submit info => some (create_account_async s info)
  | Step.worker i try_lock_ok =>
      match s.workers[i]? with
      | none => some s
      | some w =>
          match worker_step create_account try_lock_ok s.queue w with
          | none => none
          | some (queue1, w1, e) =>
              some { s with queue := queue1, workers := s.workers.set i w1,
                            trace := s.trace ++ e }

/-- Executes a finite interleaving of submissions and thread statements. -/
def run (create_account : Ffi) : Sys → List Step → Option Sys
  | s, [] => some s
  | s, st :: rest =>
      match exec create_account s st with
      | none => none
      | some s1 => run create_account s1 rest

/-! ## Observations used to state the properties -/

/-- The functions `Nan::MakeCallback` was called on, oldest first. -/
def continuations_invoked : List Event → List Value
  | [] => []
  | Event.MakeCallback cb _ :: rest => cb :: continuations_invoked rest
  | Event.create_account _ _ :: rest => continuations_invoked rest

/-- The continuations (`info[2]`) of the submissions of a schedule, in order. -/
def continuations_submitted : List Step → List Value
  | [] => []
  | Step.submit info :: rest => info_at info 2 :: continuations_submitted rest
  | Step.worker _ _ :: rest => continuations_submitted rest

/-- The argument pairs `create_account` was called with, oldest first. -/
def create_account_calls : List Event → List (String × String)
  | [] => []
  | Event.create_account locator password :: rest =>
      (locator, password) :: create_account_calls rest
  | Event.MakeCallback _ _ :: rest => create_account_calls rest

/-- Whether a submission carries two string arguments in `info[0]` and
`info[1]`, the payload of `CreateAccountAsync`. -/
def has_two_string_args (info : List Value) : Bool :=
  match info_at info 0, info_at info 1 with
  | Value.string _, Value.string _ => true
  | _, _ => false

/-- The thread is inside the blocking call of `create_account`. -/
def executing : PC → Bool
  | PC.in_create_account _ _ => true
  | _ => false

/-- The positions of the loop body that lie after the test of line 113, where
the thread works on the front `Action`: lines 118 to 131. -/
def past_check : PC → Bool
  | PC.front => true
  | PC.in_create_account _ _ => true
  | PC.pop_front => true
  | PC.end_of_body => true
  | _ => false

/-- The positions at which the thread still needs the front element of the
queue to exist: lines 118 to 130. -/
def needs_front : PC → Bool
  | PC.front => true
  | PC.in_create_account _ _ => true
  | PC.pop_front => true
  | _ => false

/-- The number of executions of `create_account` in flight. -/
def in_flight (s : Sys) : Nat :=
  (s.workers.filter (fun w => executing w.pc)).length

/-- Every queued `Action` has at least one string argument, so that
`string_args[0]` is defined. -/
def payloads_nonempty (queue : List Action) : Prop :=
  ∀ a ∈ queue, a.args.string_args ≠ []

instance (queue : List Action) : Decidable (payloads_nonempty queue) := by
  unfold payloads_nonempty; infer_instance

/-- The states in which the background thread has defined behaviour: at most
one thread, every queued payload non-empty, and a thread that works on the
front `Action` finds the queue non-empty. -/
def well_formed (s : Sys) : Prop :=
  s.workers.length ≤ 1 ∧ payloads_nonempty s.queue ∧
    ∀ w ∈ s.workers, needs_front w.pc = true → s.queue ≠ []

instance (s : Sys) : Decidable (well_formed s) := by
  unfold well_formed; infer_instance

/-- Every thread that is past the test of line 113 owns `queue_mutex`. -/
def guard_held (s : Sys) : Prop :=
  ∀ w ∈ s.workers, past_check w.pc = true → w.owns_lock = true

instance (s : Sys) : Decidable (guard_held s) := by
  unfold guard_held; infer_instance

/-- The states in which nothing is pending and nothing has been executed: the
queue is empty, `active_thread` is false, `create_account` has never been
called and no thread is past the test of line 113. -/
def idle (s : Sys) : Prop :=
  s.queue = [] ∧ s.active_thread = false ∧ create_account_calls s.trace = [] ∧
    ∀ w ∈ s.workers, past_check w.pc = false

instance (s : Sys) : Decidable (idle s) := by
  unfold idle; infer_instance

/-- The call of `create_account` that the loop body makes for the `Action` `a`
(lines 122-126): the C string of element 0 of the payload, twice. -/
def invocation_for (a : Action) : Event :=
  Event.create_account (c_str (a.args.string_args.getD 0 ""))
    (c_str (a.args.string_args.getD 0 ""))

/-- A state with the given flag and queue in which no thread has been started
and nothing has happened yet. -/
def loaded (flag : Bool) (queue : List Action) : Sys :=
  { active_thread := flag, queue := queue, workers := [], trace := [] }

/-- A foreign function that reports success (status 0) and writes a handle. -/
def create_account_success : Ffi := fun _ _ => (0, 4096)

/-- A foreign function that reports a failure (status -1). -/
def create_account_failure : Ffi := fun _ _ => (-1, 0)

/-- A callback function of the caller. -/
def cb1 : Value := Value.function 1 "function (r) {}"

/-- The `Action` of a request for `user1` with password `pw1`. -/
def action1 : Action :=
  { type := ActionType.CreateAccountAsync
    args := { string_args := ["user1", "pw1"] }
    callback := cb1 }

/-- The string `ab`, a NUL, `cd`: five characters, as line 96 can build it. -/
def ab_nul_cd : String :=
  String.mk [Char.ofNat 97, Char.ofNat 98, Char.ofNat 0, Char.ofNat 99, Char.ofNat 100]

/-- The `Action` of a request whose first argument holds a NUL. -/
def action_nul : Action :=
  { type := ActionType.CreateAccountAsync
    args := { string_args := [ab_nul_cd, "pw"] }
    callback := cb1 }

/-- The `Action` of a request for `user2` with password `pw2`. -/
def action2 : Action :=
  { type := ActionType.CreateAccountAsync
    args := { string_args := ["user2", "pw2"] }
    callback := cb1 }

/-! ## The submission path -/

theorem continuations_invoked_append (l1 l2 : List Event) :
    continuations_invoked (l1 ++ l2) =
      continuations_invoked l1 ++ continuations_invoked l2 := by
  induction l1 with
  | nil => rfl
  | cons e rest ih => cases e <;> simp [continuations_invoked, ih]

theorem create_account_calls_append (l1 l2 : List Event) :
    create_account_calls (l1 ++ l2) =
      create_account_calls l1 ++ create_account_calls l2 := by
  induction l1 with
  | nil => rfl
  | cons e rest ih => cases e <;> simp [create_account_calls, ih]

theorem create_account_async_queue (s : Sys) (info : List Value) :
    (create_account_async s info).queue = s.queue := rfl

theorem create_account_async_active_thread (s : Sys) (info : List Value) :
    (create_account_async s info).active_thread = s.active_thread := rfl

theorem create_account_async_workers (s : Sys) (info : List Value) :
    (create_account_async s info).workers = s.workers := rfl

theorem create_account_async_trace (s : Sys) (info : List Value) :
    (create_account_async s info).trace =
      s.trace ++ [Event.MakeCallback (info_at info 2) [Value.string "hello world"]] := rfl

/-- C1 (as amended): a call of `create_account_async` whose payload is not two
strings (each of `info[0]`, `info[1]` may be absent, `undefined`, a string or
a function) is handled exactly like a call with two string arguments, namely
the call whose payload is the two strings that the conversion of lines 95-100
yields for `info[0]` and `info[1]`, with the same continuation; and the call
invokes its continuation `info[2]` once. -/
theorem bad_payload_handled_like_its_strings (s : Sys) (info : List Value)
    (_h : has_two_string_args info = false) :
    has_two_string_args
        [Value.string (Utf8Value (info_at info 0)),
         Value.string (Utf8Value (info_at info 1)), info_at info 2] = true ∧
    create_account_async s info =
      create_account_async s
        [Value.string (Utf8Value (info_at info 0)),
         Value.string (Utf8Value (info_at info 1)), info_at info 2] ∧
    continuations_invoked (create_account_async s info).trace =
      continuations_invoked s.trace ++ [info_at info 2] := by
  refine ⟨rfl, ?_, ?_⟩
  · simp [create_account_async, info_at]
  · simp [create_account_async_trace, continuations_invoked_append, continuations_invoked]

/-- C1 (witness): the call that passes one string, `undefined` and a callback
is handled like the call with the strings `user1` and `undefined`, and invokes
the callback. -/
theorem bad_payload_handled_like_its_strings_witness :
    has_two_string_args [Value.string "user1", Value.undefined, cb1] = false ∧
    create_account_async (Init start) [Value.string "user1", Value.undefined, cb1] =
      create_account_async (Init start)
        [Value.string "user1", Value.string "undefined", cb1] ∧
    continuations_invoked
        (create_account_async (Init start)
          [Value.string "user1", Value.undefined, cb1]).trace = [cb1] :=
  ⟨by decide,
   (bad_payload_handled_like_its_strings (Init start)
      [Value.string "user1", Value.undefined, cb1] (by decide)).2⟩

/-- C1 (counterexample): a submission whose payload holds one string only
(`info[1]` is `undefined`) is not rejected: its continuation is invoked, and
the call has the very effect of the call with the two-string payload. -/
theorem one_string_argument_not_rejected :
    has_two_string_args [Value.string "user1", Value.undefined, cb1] = false ∧
    ¬ continuations_invoked
        (create_account_async (Init start)
          [Value.string "user1", Value.undefined, cb1]).trace = [] ∧
    create_account_async (Init start) [Value.string "user1", Value.undefined, cb1] =
      create_account_async (Init start) [Value.string "user1", Value.string "pw1", cb1] := by
  decide

/-- C3 (the code at the failing input): with `active_thread` true and an
empty queue, a valid two-argument submission leaves the queue empty; the
`Action` it built is not appended. -/
theorem busy_submission_is_not_enqueued :
    has_two_string_args [Value.string "user1", Value.string "pw1", cb1] = true ∧
    (create_account_async
        { active_thread := true, queue := [], workers := [fresh_worker], trace := [] }
        [Value.string "user1", Value.string "pw1", cb1]).queue = [] := by
  decide

/-- C4 (the code at the failing input): in the state left by `Init`, where
`active_thread` is false, a valid two-argument submission leaves
`active_thread` false, the queue empty and the only thread at the top of its
loop: the request is neither queued nor in flight. -/
theorem idle_submission_is_dropped :
    create_account_async (Init start) [Value.string "user1", Value.string "pw1", cb1] =
      { active_thread := false, queue := [], workers := [fresh_worker],
        trace := [Event.MakeCallback cb1 [Value.string "hello world"]] } := by
  decide

/-! ## One iteration of the loop of the background thread -/

theorem worker_iteration_not_acquired (ca : Ffi) (queue : List Action) :
    worker_iteration ca false queue = some (queue, []) := by
  simp [worker_iteration, worker_step, run_body, fresh_worker]

theorem worker_iteration_empty (ca : Ffi) (ok : Bool) :
    worker_iteration ca ok [] = some ([], []) := by
  simp [worker_iteration, worker_step, run_body, fresh_worker]

theorem worker_iteration_cons (ca : Ffi) (a : Action) (rest : List Action)
    (ha : a.args.string_args ≠ []) :
    worker_iteration ca true (a :: rest) = some (rest, [invocation_for a]) := by
  obtain ⟨type, ⟨sa⟩, cb⟩ := a
  cases type
  cases sa with
  | nil => exact absurd rfl ha
  | cons x xs =>
      simp [worker_iteration, worker_step, run_body, fresh_worker, invocation_for]

/-- C2 (the code at the failing input): for the front `Action` with payload
`["user1", "pw1"]` the loop body calls `create_account("user1", "user1", _)`:
the second argument is element 0 of the payload again, not element 1. -/
theorem worker_passes_locator_as_password :
    worker_iteration create_account_success true [action1] =
      some ([], [Event.create_account "user1" "user1"]) ∧
    ¬ worker_iteration create_account_success true [action1] =
      some ([], [Event.create_account "user1" "pw1"]) := by
  decide

/-! ## A run of iterations on a queue that nobody else touches -/

theorem payloads_nonempty_tail {a : Action} {rest : List Action}
    (h : payloads_nonempty (a :: rest)) : payloads_nonempty rest :=
  fun b hb => h b (List.mem_cons_of_mem a hb)

theorem drain_eq (ca : Ffi) :
    ∀ (sched : List Bool) (queue : List Action), payloads_nonempty queue →
      drain ca sched queue =
        some (queue.drop (sched.count true),
              (queue.take (sched.count true)).map invocation_for) := by
  intro sched
  induction sched with
  | nil => intro queue _; simp [drain]
  | cons ok rest ih =>
      intro queue hq
      cases ok with
      | false =>
          simp [drain, worker_iteration_not_acquired, ih queue hq]
      | true =>
          cases queue with
          | nil =>
              simp [drain, worker_iteration_empty, ih [] hq]
          | cons a r =>
              have ha : a.args.string_args ≠ [] := hq a (List.mem_cons_self a r)
              simp [drain, worker_iteration_cons ca a r ha,
                ih r (payloads_nonempty_tail hq)]

/-- C9: on a queue `q` of Actions with non-empty payloads that only the
background thread touches, an iteration that does not acquire the guard leaves
whatever remains of the queue unchanged and calls nothing; an iteration that
acquires it calls `create_account` once, for the front of what remains (with
the C string of element 0 of its payload as both arguments), and removes
exactly that front (and does nothing when nothing remains).  Hence a run with
`k` acquiring iterations has removed the first `k` Actions and called
`create_account` once for each, in queue order; with `k = q.length` the queue
is empty and there has been one call per Action, in the order of the queue. -/
theorem worker_drains_queue_in_order (ca : Ffi) (q : List Action)
    (hq : payloads_nonempty q) :
    (∀ k, worker_iteration ca false (q.drop k) = some (q.drop k, [])) ∧
    (∀ ok, worker_iteration ca ok [] = some ([], [])) ∧
    (∀ k, worker_iteration ca true (q.drop k) =
        some (q.drop (k + 1), ((q.drop k).take 1).map invocation_for)) ∧
    (∀ sched, drain ca sched q =
        some (q.drop (sched.count true),
              (q.take (sched.count true)).map invocation_for)) ∧
    (∀ sched, sched.count true = q.length →
        drain ca sched q = some ([], q.map invocation_for)) := by
  refine ⟨fun k => worker_iteration_not_acquired ca _,
    fun ok => worker_iteration_empty ca ok, ?_, fun sched => drain_eq ca sched q hq, ?_⟩
  · intro k
    have hk : payloads_nonempty (q.drop k) := fun a ha => hq a (List.mem_of_mem_drop ha)
    cases hd : q.drop k with
    | nil =>
        have hlen : q.length ≤ k := List.drop_eq_nil_iff.mp hd
        have hd1 : q.drop (k + 1) = [] := List.drop_eq_nil_iff.mpr (by omega)
        simp [hd1, worker_iteration_empty]
    | cons a r =>
        rw [hd] at hk
        have ha : a.args.string_args ≠ [] := hk a (List.mem_cons_self a r)
        have hd1 : q.drop (k + 1) = r := by
          rw [← List.drop_drop, hd]; rfl
        simp [hd1, worker_iteration_cons ca a r ha]
  · intro sched hn
    rw [drain_eq ca sched q hq, hn]
    simp

/-- C9 (witness): three queued Actions, the second with a NUL in its first
argument, drained by three acquiring iterations and one that does not
acquire the guard. -/
theorem worker_drains_queue_in_order_witness :
    payloads_nonempty [action1, action_nul, action2] ∧
    drain create_account_success [true, false, true, true]
        [action1, action_nul, action2] =
      some ([], [Event.create_account "user1" "user1",
                 Event.create_account "ab" "ab",
                 Event.create_account "user2" "user2"]) :=
  ⟨by decide,
   (worker_drains_queue_in_order create_account_success [action1, action_nul, action2]
      (by decide)).2.2.2.2 [true, false, true, true] (by decide)⟩

/-! ## Interleavings: general facts -/

theorem worker_step_ffi (ca1 ca2 : Ffi) (ok : Bool) (queue : List Action) (w : Worker) :
    worker_step ca1 ok queue w = worker_step ca2 ok queue w := by
  obtain ⟨pc, owns⟩ := w
  cases pc <;> rfl

theorem exec_ffi (ca1 ca2 : Ffi) (s : Sys) (st : Step) :
    exec ca1 s st = exec ca2 s st := by
  cases st with
  | submit info => rfl
  | worker i ok => simp only [exec, worker_step_ffi ca1 ca2]

theorem run_ffi (ca1 ca2 : Ffi) :
    ∀ (sched : List Step) (s : Sys), run ca1 s sched = run ca2 s sched := by
  intro sched
  induction sched with
  | nil => intro s; rfl
  | cons st rest ih =>
      intro s
      simp only [run, exec_ffi ca1 ca2 s st]
      cases exec ca2 s st with
      | none => rfl
      | some s1 => exact ih s1

/-- The statements of the background thread never call `Nan::MakeCallback`. -/
theorem worker_step_no_callback {ca : Ffi} {ok : Bool} {queue queue1 : List Action}
    {w w1 : Worker} {e : List Event}
    (h : worker_step ca ok queue w = some (queue1, w1, e)) :
    continuations_invoked e = [] := by
  obtain ⟨pc, owns⟩ := w
  cases pc with
  | try_to_lock => simp [worker_step] at h; rcases h with ⟨-, -, rfl⟩; rfl
  | check =>
      simp only [worker_step] at h
      split at h <;> (simp at h; rcases h with ⟨-, -, rfl⟩; rfl)
  | front =>
      cases queue with
      | nil => simp [worker_step] at h
      | cons a r =>
          obtain ⟨type, ⟨sa⟩, cb⟩ := a
          cases type
          cases sa with
          | nil => simp [worker_step] at h
          | cons x xs =>
              simp [worker_step] at h
              rcases h with ⟨-, -, rfl⟩
              rfl
  | in_create_account a1 a2 =>
      simp [worker_step] at h; rcases h with ⟨-, -, rfl⟩; rfl
  | pop_front =>
      cases queue with
      | nil => simp [worker_step] at h
      | cons a r => simp [worker_step] at h; rcases h with ⟨-, -, rfl⟩; rfl
  | end_of_body => simp [worker_step] at h; rcases h with ⟨-, -, rfl⟩; rfl

/-- The two ways a statement of thread `i` can go: there is no such thread
and nothing changes, or the thread executes `worker_step`. -/
theorem exec_worker_cases {ca : Ffi} {s s1 : Sys} {i : Nat} {ok : Bool}
    (h : exec ca s (Step.worker i ok) = some s1) :
    (s.workers[i]? = none ∧ s1 = s) ∨
    ∃ w queue1 w1 e, s.workers[i]? = some w ∧
      worker_step ca ok s.queue w = some (queue1, w1, e) ∧
      s1 = { s with queue := queue1, workers := s.workers.set i w1,
                    trace := s.trace ++ e } := by
  simp only [exec] at h
  cases hw : s.workers[i]? with
  | none =>
      simp only [hw, Option.some.injEq] at h
      exact Or.inl ⟨rfl, h.symm⟩
  | some w =>
      simp only [hw] at h
      cases hs : worker_step ca ok s.queue w with
      | none => simp [hs] at h
      | some r =>
          obtain ⟨queue1, w1, e⟩ := r
          simp only [hs, Option.some.injEq] at h
          exact Or.inr ⟨w, queue1, w1, e, rfl, hs, h.symm⟩

theorem exec_continuations {ca : Ffi} {s s1 : Sys} {st : Step}
    (h : exec ca s st = some s1) :
    continuations_invoked s1.trace =
      continuations_invoked s.trace ++ continuations_submitted [st] := by
  cases st with
  | submit info =>
      simp only [exec, Option.some.injEq] at h
      subst h
      simp [create_account_async_trace, continuations_invoked_append,
        continuations_invoked, continuations_submitted]
  | worker i ok =>
      rcases exec_worker_cases h with ⟨-, rfl⟩ | ⟨w, queue1, w1, e, -, hs, rfl⟩
      · simp [continuations_submitted]
      · simp [continuations_invoked_append, worker_step_no_callback hs,
          continuations_submitted]

theorem continuations_submitted_cons (st : Step) (rest : List Step) :
    continuations_submitted (st :: rest) =
      continuations_submitted [st] ++ continuations_submitted rest := by
  cases st <;> simp [continuations_submitted]

theorem run_continuations {ca : Ffi} :
    ∀ (sched : List Step) (s s1 : Sys), run ca s sched = some s1 →
      continuations_invoked s1.trace =
        continuations_invoked s.trace ++ continuations_submitted sched := by
  intro sched
  induction sched with
  | nil =>
      intro s s1 h
      simp only [run, Option.some.injEq] at h
      subst h
      simp [continuations_submitted]
  | cons st rest ih =>
      intro s s1 h
      simp only [run] at h
      cases he : exec ca s st with
      | none => rw [he] at h; simp at h
      | some s2 =>
          rw [he] at h
          rw [ih s2 s1 h, exec_continuations he, continuations_submitted_cons st rest,
            List.append_assoc]

/-! ## Interleavings: defined behaviour -/

theorem worker_step_defined (ca : Ffi) (ok : Bool) {queue : List Action} {w : Worker}
    (hp : payloads_nonempty queue) (hf : needs_front w.pc = true → queue ≠ []) :
    ∃ queue1 w1 e, worker_step ca ok queue w = some (queue1, w1, e) ∧
      payloads_nonempty queue1 ∧ (needs_front w1.pc = true → queue1 ≠ []) := by
  obtain ⟨pc, owns⟩ := w
  cases pc with
  | try_to_lock =>
      exact ⟨queue, ⟨PC.check, ok⟩, [], rfl, hp, by simp [needs_front]⟩
  | check =>
      cases queue with
      | nil =>
          refine ⟨[], ⟨PC.try_to_lock, false⟩, [], ?_, hp, ?_⟩ <;>
            simp [worker_step, needs_front]
      | cons a r =>
          cases owns with
          | false =>
              refine ⟨a :: r, ⟨PC.try_to_lock, false⟩, [], ?_, hp, ?_⟩ <;>
                simp [worker_step]
          | true =>
              refine ⟨a :: r, ⟨PC.front, true⟩, [], ?_, hp, ?_⟩ <;>
                simp [worker_step]
  | front =>
      cases queue with
      | nil => exact absurd rfl (hf rfl)
      | cons a r =>
          have ha : a.args.string_args ≠ [] := hp a (List.mem_cons_self a r)
          obtain ⟨type, ⟨sa⟩, cb⟩ := a
          cases type
          cases sa with
          | nil => exact absurd rfl ha
          | cons x xs =>
              refine ⟨_, ⟨PC.in_create_account (c_str x) (c_str x), owns⟩,
                [Event.create_account (c_str x) (c_str x)], ?_, hp, ?_⟩ <;>
                simp [worker_step]
  | in_create_account a1 a2 =>
      exact ⟨queue, ⟨PC.pop_front, owns⟩, [], rfl, hp, fun _ => hf rfl⟩
  | pop_front =>
      cases queue with
      | nil => exact absurd rfl (hf rfl)
      | cons a r =>
          refine ⟨r, ⟨PC.end_of_body, owns⟩, [], ?_, payloads_nonempty_tail hp, ?_⟩ <;>
            simp [worker_step, needs_front]
  | end_of_body =>
      exact ⟨queue, ⟨PC.try_to_lock, false⟩, [], rfl, hp, by simp [needs_front]⟩

theorem exec_well_formed (ca : Ffi) {s : Sys} (st : Step) (h : well_formed s) :
    ∃ s1, exec ca s st = some s1 ∧ well_formed s1 := by
  cases st with
  | submit info => exact ⟨_, rfl, h⟩
  | worker i ok =>
      obtain ⟨flag, queue, ws, tr⟩ := s
      obtain ⟨hl, hp, hf⟩ := h
      dsimp only at hl hp hf
      match ws, hl, hf with
      | [], hl, hf =>
          exact ⟨⟨flag, queue, [], tr⟩, by simp [exec], ⟨hl, hp, hf⟩⟩
      | [w], hl, hf =>
          cases i with
          | zero =>
              obtain ⟨queue1, w1, e, hs, hp1, hf1⟩ :=
                worker_step_defined ca ok hp (hf w (List.mem_singleton_self w))
              refine ⟨⟨flag, queue1, [w1], tr ++ e⟩, by simp [exec, hs], ?_⟩
              refine ⟨by simp, hp1, ?_⟩
              intro w2 hw2
              simp at hw2
              subst hw2
              exact hf1
          | succ n =>
              exact ⟨⟨flag, queue, [w], tr⟩, by simp [exec], ⟨hl, hp, hf⟩⟩
      | _ :: _ :: _, hl, _ => simp at hl

theorem run_well_formed (ca : Ffi) :
    ∀ (sched : List Step) (s : Sys), well_formed s →
      ∃ s1, run ca s sched = some s1 ∧ well_formed s1 := by
  intro sched
  induction sched with
  | nil => intro s h; exact ⟨s, rfl, h⟩
  | cons st rest ih =>
      intro s h
      obtain ⟨s2, he, h2⟩ := exec_well_formed ca st h
      obtain ⟨s1, hr, h1⟩ := ih s2 h2
      exact ⟨s1, by simp [run, he, hr], h1⟩

theorem well_formed_Init_loaded (flag : Bool) (queue : List Action)
    (hq : payloads_nonempty queue) : well_formed (Init (loaded flag queue)) := by
  refine ⟨by simp [Init, loaded], hq, ?_⟩
  intro w hw
  simp [Init, loaded, fresh_worker] at hw
  subst hw
  simp [needs_front]

/-! ## Interleavings: the number of threads -/

theorem exec_workers_length {ca : Ffi} {s s1 : Sys} {st : Step}
    (h : exec ca s st = some s1) : s1.workers.length = s.workers.length := by
  cases st with
  | submit info =>
      simp only [exec, Option.some.injEq] at h
      subst h
      rfl
  | worker i ok =>
      rcases exec_worker_cases h with ⟨-, rfl⟩ | ⟨w, queue1, w1, e, -, -, rfl⟩
      · rfl
      · simp

theorem run_workers_length {ca : Ffi} :
    ∀ (sched : List Step) (s s1 : Sys), run ca s sched = some s1 →
      s1.workers.length = s.workers.length := by
  intro sched
  induction sched with
  | nil =>
      intro s s1 h
      simp only [run, Option.some.injEq] at h
      subst h
      rfl
  | cons st rest ih =>
      intro s s1 h
      simp only [run] at h
      cases he : exec ca s st with
      | none => rw [he] at h; simp at h
      | some s2 =>
          rw [he] at h
          rw [ih s2 s1 h, exec_workers_length he]

theorem in_flight_le_workers (s : Sys) : in_flight s ≤ s.workers.length :=
  List.length_filter_le _ _

/-! ## Interleavings: the scope of the guard -/

theorem worker_step_guard {ca : Ffi} {ok : Bool} {queue queue1 : List Action}
    {w w1 : Worker} {e : List Event}
    (h : worker_step ca ok queue w = some (queue1, w1, e))
    (hg : past_check w.pc = true → w.owns_lock = true) :
    past_check w1.pc = true → w1.owns_lock = true := by
  obtain ⟨pc, owns⟩ := w
  cases pc with
  | try_to_lock =>
      simp [worker_step] at h
      rcases h with ⟨-, rfl, -⟩
      simp [past_check]
  | check =>
      cases owns with
      | false =>
          simp [worker_step] at h
          rcases h with ⟨-, rfl, -⟩
          simp [past_check]
      | true =>
          simp only [worker_step] at h
          split at h <;> (simp at h; rcases h with ⟨-, rfl, -⟩; simp [past_check])
  | front =>
      have ho : owns = true := hg rfl
      cases queue with
      | nil => simp [worker_step] at h
      | cons a r =>
          obtain ⟨type, ⟨sa⟩, cb⟩ := a
          cases type
          cases sa with
          | nil => simp [worker_step] at h
          | cons x xs =>
              simp [worker_step] at h
              rcases h with ⟨-, rfl, -⟩
              intro _
              exact ho
  | in_create_account a1 a2 =>
      have ho : owns = true := hg rfl
      simp [worker_step] at h
      rcases h with ⟨-, rfl, -⟩
      intro _
      exact ho
  | pop_front =>
      have ho : owns = true := hg rfl
      cases queue with
      | nil => simp [worker_step] at h
      | cons a r =>
          simp [worker_step] at h
          rcases h with ⟨-, rfl, -⟩
          intro _
          exact ho
  | end_of_body =>
      simp [worker_step] at h
      rcases h with ⟨-, rfl, -⟩
      simp [past_check]

theorem exec_guard_held {ca : Ffi} {s s1 : Sys} {st : Step}
    (hg : guard_held s) (h : exec ca s st = some s1) : guard_held s1 := by
  cases st with
  | submit info =>
      simp only [exec, Option.some.injEq] at h
      subst h
      exact hg
  | worker i ok =>
      rcases exec_worker_cases h with ⟨-, rfl⟩ | ⟨w, queue1, w1, e, hw, hs, rfl⟩
      · exact hg
      · intro w2 hw2
        rcases List.mem_or_eq_of_mem_set hw2 with hmem | rfl
        · exact hg w2 hmem
        · exact worker_step_guard hs (hg w (List.getElem?_mem hw))

theorem run_guard_held {ca : Ffi} :
    ∀ (sched : List Step) (s s1 : Sys), guard_held s → run ca s sched = some s1 →
      guard_held s1 := by
  intro sched
  induction sched with
  | nil =>
      intro s s1 hg h
      simp only [run, Option.some.injEq] at h
      subst h
      exact hg
  | cons st rest ih =>
      intro s s1 hg h
      simp only [run] at h
      cases he : exec ca s st with
      | none => rw [he] at h; simp at h
      | some s2 =>
          rw [he] at h
          exact ih s2 s1 (exec_guard_held hg he) h

theorem guard_held_Init_loaded (flag : Bool) (queue : List Action) :
    guard_held (Init (loaded flag queue)) := by
  intro w hw
  simp [Init, loaded, fresh_worker] at hw
  subst hw
  simp [past_check]

/-! ## Interleavings of the program as written -/

theorem worker_step_idle (ca : Ffi) (ok : Bool) {w : Worker}
    (hw : past_check w.pc = false) :
    ∃ w1, worker_step ca ok [] w = some ([], w1, []) ∧ past_check w1.pc = false := by
  obtain ⟨pc, owns⟩ := w
  cases pc with
  | try_to_lock => exact ⟨⟨PC.check, ok⟩, rfl, rfl⟩
  | check => exact ⟨⟨PC.try_to_lock, false⟩, by simp [worker_step], rfl⟩
  | front => simp [past_check] at hw
  | in_create_account a1 a2 => simp [past_check] at hw
  | pop_front => simp [past_check] at hw
  | end_of_body => simp [past_check] at hw

theorem exec_idle (ca : Ffi) {s : Sys} (st : Step) (h : idle s) :
    ∃ s1, exec ca s st = some s1 ∧ idle s1 := by
  obtain ⟨hq, hf, hc, hw⟩ := h
  cases st with
  | submit info =>
      refine ⟨_, rfl, hq, hf, ?_, hw⟩
      simp [create_account_async_trace, create_account_calls_append, hc,
        create_account_calls]
  | worker i ok =>
      cases hi : s.workers[i]? with
      | none => exact ⟨s, by simp [exec, hi], hq, hf, hc, hw⟩
      | some w =>
          obtain ⟨w1, hs, hw1⟩ := worker_step_idle ca ok (hw w (List.getElem?_mem hi))
          refine ⟨{ s with queue := [], workers := s.workers.set i w1,
                           trace := s.trace ++ [] }, by simp [exec, hi, hq, hs],
                  rfl, hf, by simpa using hc, ?_⟩
          intro w2 hw2
          rcases List.mem_or_eq_of_mem_set hw2 with hmem | rfl
          · exact hw w2 hmem
          · exact hw1

theorem run_idle (ca : Ffi) :
    ∀ (sched : List Step) (s : Sys), idle s → ∃ s1, run ca s sched = some s1 ∧ idle s1 := by
  intro sched
  induction sched with
  | nil => intro s h; exact ⟨s, rfl, h⟩
  | cons st rest ih =>
      intro s h
      obtain ⟨s2, he, h2⟩ := exec_idle ca st h
      obtain ⟨s1, hr, h1⟩ := ih s2 h2
      exact ⟨s1, by simp [run, he, hr], h1⟩

theorem idle_Init_start : idle (Init start) := by decide

/-! ## Properties of interleavings -/

/-- C5 (the code at the failing input): what `create_account` returns has no
influence on any run, and the continuation of a submission receives the fixed
string `"hello world"` both when `create_account` reports success and when it
reports a failure. -/
theorem continuation_gets_hello_world_whatever_create_account_returns :
    (∀ (ca1 ca2 : Ffi) (s : Sys) (sched : List Step), run ca1 s sched = run ca2 s sched) ∧
    Option.map Sys.trace
        (run create_account_success (Init start)
          [Step.submit [Value.string "user1", Value.string "pw1", cb1],
           Step.worker 0 true, Step.worker 0 true, Step.worker 0 true]) =
      some [Event.MakeCallback cb1 [Value.string "hello world"]] ∧
    Option.map Sys.trace
        (run create_account_failure (Init start)
          [Step.submit [Value.string "user1", Value.string "pw1", cb1],
           Step.worker 0 true, Step.worker 0 true, Step.worker 0 true]) =
      some [Event.MakeCallback cb1 [Value.string "hello world"]] := by
  refine ⟨fun ca1 ca2 s sched => run_ffi ca1 ca2 sched s, ?_, ?_⟩ <;> decide

/-- C6: from every well-formed state, every finite interleaving of submissions
and statements of the background thread runs to the end, and the continuations
invoked during it, by `create_account_async` and by the background thread
together, are exactly the continuations of its submissions, one invocation per
submission and in submission order; so every continuation is invoked as many
times as it was submitted, never fewer and never more. -/
theorem continuation_invoked_exactly_once (ca : Ffi) (s : Sys) (sched : List Step)
    (h : well_formed s) :
    ∃ s1, run ca s sched = some s1 ∧
      continuations_invoked s1.trace =
        continuations_invoked s.trace ++ continuations_submitted sched ∧
      ∀ cb, (continuations_invoked s1.trace).count cb =
        (continuations_invoked s.trace).count cb +
          (continuations_submitted sched).count cb := by
  obtain ⟨s1, hr, -⟩ := run_well_formed ca sched s h
  have hc := run_continuations sched s s1 hr
  refine ⟨s1, hr, hc, fun cb => ?_⟩
  rw [hc, List.count_append]

/-- C6 (witness): a run that starts with one queued `Action`, submits twice and
lets the background thread execute the queued `Action` in between. -/
theorem continuation_invoked_exactly_once_witness :
    well_formed (Init (loaded false [action1])) ∧
    ∃ s1, run create_account_success (Init (loaded false [action1]))
        [Step.submit [Value.string "user2", Value.string "pw2", cb1],
         Step.worker 0 true, Step.worker 0 true, Step.worker 0 true,
         Step.worker 0 true, Step.worker 0 true,
         Step.submit [Value.string "user3", Value.string "pw3",
           Value.function 2 "function (r) {}"]] = some s1 ∧
      continuations_invoked s1.trace =
        continuations_invoked (Init (loaded false [action1])).trace ++
          continuations_submitted
            [Step.submit [Value.string "user2", Value.string "pw2", cb1],
             Step.worker 0 true, Step.worker 0 true, Step.worker 0 true,
             Step.worker 0 true, Step.worker 0 true,
             Step.submit [Value.string "user3", Value.string "pw3",
               Value.function 2 "function (r) {}"]] ∧
      ∀ cb, (continuations_invoked s1.trace).count cb =
        (continuations_invoked (Init (loaded false [action1])).trace).count cb +
          (continuations_submitted
            [Step.submit [Value.string "user2", Value.string "pw2", cb1],
             Step.worker 0 true, Step.worker 0 true, Step.worker 0 true,
             Step.worker 0 true, Step.worker 0 true,
             Step.submit [Value.string "user3", Value.string "pw3",
               Value.function 2 "function (r) {}"]]).count cb :=
  ⟨by decide,
   continuation_invoked_exactly_once create_account_success
     (Init (loaded false [action1])) _ (by decide)⟩

/-- C7 (counterexample): with one `Action` queued, the third statement of the
background thread puts it inside `create_account` while its guard owns
`queue_mutex`. -/
theorem create_account_called_with_guard_held :
    run create_account_success (Init (loaded false [action1]))
        [Step.worker 0 true, Step.worker 0 true, Step.worker 0 true] =
      some { active_thread := false, queue := [action1],
             workers := [{ pc := PC.in_create_account "user1" "user1", owns_lock := true }],
             trace := [Event.create_account "user1" "user1"] } ∧
    executing (PC.in_create_account "user1" "user1") = true := by
  decide

/-- C7 (as amended): in every interleaving that follows one call of `Init` on a
queue of Actions with non-empty payloads, a background thread that is inside
`create_account` owns `queue_mutex`; more generally its guard is held at every
position after the test of line 113, up to the end of the loop body. -/
theorem guard_held_across_create_account (ca : Ffi) (flag : Bool) (q : List Action)
    (sched : List Step) (hq : payloads_nonempty q) :
    ∃ s1, run ca (Init (loaded flag q)) sched = some s1 ∧
      (∀ w ∈ s1.workers, executing w.pc = true → w.owns_lock = true) ∧
      (∀ w ∈ s1.workers, past_check w.pc = true → w.owns_lock = true) := by
  obtain ⟨s1, hr, -⟩ := run_well_formed ca sched _ (well_formed_Init_loaded flag q hq)
  have hg : guard_held s1 := run_guard_held sched _ s1 (guard_held_Init_loaded flag q) hr
  refine ⟨s1, hr, fun w hw he => hg w hw ?_, hg⟩
  cases hpc : w.pc <;> simp [hpc, executing] at he
  rfl

/-- C7 (witness): the run of the counterexample. -/
theorem guard_held_across_create_account_witness :
    payloads_nonempty [action1] ∧
    ∃ s1, run create_account_success (Init (loaded false [action1]))
        [Step.worker 0 true, Step.worker 0 true, Step.worker 0 true] = some s1 ∧
      (∀ w ∈ s1.workers, executing w.pc = true → w.owns_lock = true) ∧
      (∀ w ∈ s1.workers, past_check w.pc = true → w.owns_lock = true) :=
  ⟨by decide,
   guard_held_across_create_account create_account_success false [action1] _ (by decide)⟩

/-- C8: in every interleaving of submissions and thread statements that follows
one call of `Init` (on any flag and any queue of Actions with non-empty
payloads), the run is defined, the number of background threads is still one,
and at most one execution of `create_account` is in flight. -/
theorem single_worker (ca : Ffi) (flag : Bool) (q : List Action) (sched : List Step)
    (hq : payloads_nonempty q) :
    ∃ s1, run ca (Init (loaded flag q)) sched = some s1 ∧
      s1.workers.length = 1 ∧ in_flight s1 ≤ 1 := by
  obtain ⟨s1, hr, -⟩ := run_well_formed ca sched _ (well_formed_Init_loaded flag q hq)
  have hl : s1.workers.length = 1 := by
    rw [run_workers_length sched _ s1 hr]
    simp [Init, loaded]
  exact ⟨s1, hr, hl, hl ▸ in_flight_le_workers s1⟩

/-- C8 (witness): two submissions while the only thread executes a queued
`Action`. -/
theorem single_worker_witness :
    payloads_nonempty [action1, action2] ∧
    ∃ s1, run create_account_success (Init (loaded false [action1, action2]))
        [Step.worker 0 true, Step.worker 0 true,
         Step.submit [Value.string "user3", Value.string "pw3", cb1],
         Step.worker 0 true,
         Step.submit [Value.string "user4", Value.string "pw4", cb1]] = some s1 ∧
      s1.workers.length = 1 ∧ in_flight s1 ≤ 1 :=
  ⟨by decide,
   single_worker create_account_success false [action1, action2] _ (by decide)⟩

/-- C10: from the state left by `Init` at module load, every finite
interleaving of calls of `create_account_async` and statements of the
background thread is defined and ends with the pending queue empty,
`active_thread` false, no call of `create_account` made, none in flight, and
no thread past the test of line 113. -/
theorem nothing_is_ever_queued_or_executed (ca : Ffi) (sched : List Step) :
    ∃ s1, run ca (Init start) sched = some s1 ∧
      s1.queue = [] ∧ s1.active_thread = false ∧
      create_account_calls s1.trace = [] ∧ in_flight s1 = 0 ∧
      ∀ w ∈ s1.workers, past_check w.pc = false := by
  obtain ⟨s1, hr, hq, hf, hc, hw⟩ := run_idle ca sched (Init start) idle_Init_start
  refine ⟨s1, hr, hq, hf, hc, ?_, hw⟩
  simp only [in_flight, List.length_eq_zero, List.filter_eq_nil_iff]
  intro w hmem
  have := hw w hmem
  cases hpc : w.pc <;> simp [hpc, past_check, executing] at this ⊢

end SafeCoreNan
